import Mathlib

/-!
Shallow embedding of the movie-catalog storage core (`istorage.py`,
`storage/storage_json.py`, `storage/storage_csv.py`) and proofs of the
specification's claims about it.

Modelling conventions:
* A Python movie record is a dict that may or may not carry the keys
  `year`, `rating`, `poster`.  A field of type `Option (Option τ)` is
  `none` when the key is absent, `some none` when the key is present with
  the Python value `None`, and `some (some v)` when it holds a value.
* Python `int` and `float` values are both numbers under Python's `==`;
  ratings are modelled as `Rat` (exact rationals), years as `Int`.
* A catalog is the Python dict mapping title to record, modelled as an
  association list in insertion order, with dict semantics given by
  `dictSet` (overwrite keeps the position, fresh keys append) and
  `dictPop`.
-/

namespace MovieCat

/-- A movie record: the per-title dict with optional keys `year`, `rating`,
`poster` (see `IStorage.add_movie` and `StorageCsv._load_data`). -/
structure MRecord where
  year : Option (Option Int)
  rating : Option (Option Rat)
  poster : Option String
deriving DecidableEq

/-- A catalog: the title-to-record dict, as an association list in dict
(insertion) order. -/
abbrev Catalog := List (String × MRecord)

/-- The key list of a catalog, in order. -/
def keys (d : Catalog) : List String := d.map Prod.fst

/-- Python dict assignment `d[k] = v`: overwrite the (unique) existing
entry in place when the key exists, append at the end otherwise. -/
def dictSet : Catalog → String → MRecord → Catalog
  | [], k, v => [(k, v)]
  | p :: l, k, v => if p.1 = k then (k, v) :: l else p :: dictSet l k v

/-- Python dict removal `d.pop(k)`. -/
def dictPop (d : Catalog) (k : String) : Catalog :=
  d.eraseP (fun p => p.1 == k)

/-- Reading `info["rating"]` as a number.  Total model: the theorems about
statistics are only ever applied to catalogs, and the Python code only
ever runs on data, where the key is present. -/
def recRating (r : MRecord) : Rat := (Option.join r.rating).getD 0

/-- Reading `info["year"]` as a number, total in the same way as
`recRating`. -/
def recYear (r : MRecord) : Int := (Option.join r.year).getD 0

/-- One CSV field, at the level the `csv` module presents it: every field
is text, and the `csv` writer/reader round-trips it exactly.  A field is
tagged by what its text denotes: `str s` is text that is not the decimal
notation of a number (or is empty), `int n` is the text `str(n)` of a
Python `int`, and `num q` is the text `str(q)` of a Python `float`
(`repr`/`float` round-trip exactly, so the tag carries the value
itself). -/
inductive Cell where
  | str (s : String)
  | int (n : Int)
  | num (q : Rat)
deriving DecidableEq

/-- Messages printed by the storage layer; each constructor stands for one
of the `print` calls in the source. -/
inductive Msg where
  | notFound (title : String)
  | deleted (title : String)
  | updated (title : String)
  | addedOrUpdated
  | missingColumns (cols : List String)
  | skippingRow (row : List Cell)
  | loadError
deriving DecidableEq

/-- A storage backend: the `_load_data` / `_save_data` pair of
`IStorage`, over an abstract file type. -/
structure Backend (F : Type) where
  load : F → Catalog
  save : Catalog → F

/-- The record built by `IStorage.add_movie`: all three keys present. -/
def newMovie (year : Int) (rating : Rat) (poster : String) : MRecord :=
  { year := some (some year), rating := some (some rating), poster := some poster }

/-- The catalog transformation performed by `IStorage.add_movie` between
its `_load_data` and `_save_data` calls: `data[title] = new_movie`. -/
def add_movie (d : Catalog) (title : String) (year : Int) (rating : Rat)
    (poster : String) : Catalog :=
  dictSet d title (newMovie year rating poster)

/-- `IStorage.delete_movie` at the file level: load, remove and save when
the title is present, otherwise only report; the file is written only in
the first case. -/
def delete_movie {F : Type} (B : Backend F) (f : F) (title : String) : F × Msg :=
  let data := B.load f
  if title ∈ keys data then (B.save (dictPop data title), Msg.deleted title)
  else (f, Msg.notFound title)

/-- The catalog transformation of `IStorage.update_movie` on a present
title: `data[title]["rating"] = rating`, rewriting the record of the
(unique) matching key in place, all other keys and entries kept. -/
def setRating : Catalog → String → Rat → Catalog
  | [], _, _ => []
  | p :: l, title, rating =>
    if p.1 = title then (p.1, { p.2 with rating := some (some rating) }) :: l
    else p :: setRating l title rating

/-- `IStorage.update_movie` at the file level: load, mutate the rating and
save when the title is present, otherwise only report. -/
def update_movie {F : Type} (B : Backend F) (f : F) (title : String) (rating : Rat) :
    F × Msg :=
  let data := B.load f
  if title ∈ keys data then (B.save (setRating data title rating), Msg.updated title)
  else (f, Msg.notFound title)

/-- The list of ratings of a catalog, in catalog order, as read by
`IStorage.show_stats` (`info["rating"] for info in data.values()`). -/
def ratings (d : Catalog) : List Rat := d.map (fun p => recRating p.2)

/-- The comparison `key=lambda x: x[1]["rating"]` used by `show_stats`. -/
def ratingLE (p q : String × MRecord) : Prop := recRating p.2 ≤ recRating q.2

instance : DecidableRel ratingLE :=
  fun p q => inferInstanceAs (Decidable (recRating p.2 ≤ recRating q.2))

instance : IsTotal (String × MRecord) ratingLE :=
  ⟨fun p q => le_total (recRating p.2) (recRating q.2)⟩

instance : IsTrans (String × MRecord) ratingLE :=
  ⟨fun _ _ _ h h2 => le_trans h h2⟩

/-- The comparison `key=lambda x: x[1]["year"]` used by
`movies_sorted_by_year`. -/
def yearLE (p q : String × MRecord) : Prop := recYear p.2 ≤ recYear q.2

instance : DecidableRel yearLE :=
  fun p q => inferInstanceAs (Decidable (recYear p.2 ≤ recYear q.2))

instance : IsTotal (String × MRecord) yearLE :=
  ⟨fun p q => le_total (recYear p.2) (recYear q.2)⟩

instance : IsTrans (String × MRecord) yearLE :=
  ⟨fun _ _ _ h h2 => le_trans h h2⟩

/-- The reversed year comparison, `sorted(..., reverse=True)`: a stable
sort with the key order flipped. -/
def yearGE (p q : String × MRecord) : Prop := recYear q.2 ≤ recYear p.2

instance : DecidableRel yearGE :=
  fun p q => inferInstanceAs (Decidable (recYear q.2 ≤ recYear p.2))

/-- Python's `sorted` is by contract the stable sort for the given key;
`List.insertionSort` is stable, so it is the same function. -/
def pySorted {α : Type} (r : α → α → Prop) [DecidableRel r] (l : List α) : List α :=
  List.insertionSort r l

/-- `sorted(data.items(), key=lambda x: x[1]["rating"])` in `show_stats`. -/
def sortedMovies (d : Catalog) : Catalog := pySorted ratingLE d

/-- `sorted(info["rating"] for info in data.values())` in `show_stats`. -/
def sortedRatings (d : Catalog) : List Rat := pySorted (· ≤ ·) (ratings d)

/-- The average rating computed by `show_stats`:
`total_rating / len(data)`. -/
def averageRating (d : Catalog) : Rat := (ratings d).sum / (d.length : Rat)

/-- The median rating computed by `show_stats`: middle element of the
ascending sorted ratings, or the mean of the two middle elements when the
count is even.  List indexing is modelled by `getD`; the indices are in
range whenever the catalog is non-empty. -/
def medianRating (d : Catalog) : Rat :=
  let s := sortedRatings d
  if s.length % 2 = 0 then
    (s.getD (s.length / 2) 0 + s.getD (s.length / 2 - 1) 0) / 2
  else s.getD (s.length / 2) 0

/-- `sorted_movies[-1]` in `show_stats` (the defaults are never reached on
a non-empty catalog). -/
def bestMovie (d : Catalog) : String × MRecord :=
  (sortedMovies d).getLastD ("", ⟨none, none, none⟩)

/-- `sorted_movies[0]` in `show_stats`. -/
def worstMovie (d : Catalog) : String × MRecord :=
  (sortedMovies d).headD ("", ⟨none, none, none⟩)

/-- The titles printed by `IStorage.print_best_worst_movie`: every entry
of `movie_list` whose rating equals the given movie's rating. -/
def tiedTitles (movie : String × MRecord) (movieList : Catalog) : List String :=
  (movieList.filter (fun p => recRating p.2 == recRating movie.2)).map Prod.fst

/-- The best-movie line of `show_stats`. -/
def bestTitles (d : Catalog) : List String := tiedTitles (bestMovie d) (sortedMovies d)

/-- The worst-movie line of `show_stats`. -/
def worstTitles (d : Catalog) : List String := tiedTitles (worstMovie d) (sortedMovies d)

/-- `IStorage.show_stats`: `none` models the early return on an empty
catalog, otherwise the average, the median and the best/worst title
lines. -/
def show_stats (d : Catalog) : Option (Rat × Rat × List String × List String) :=
  if d.length = 0 then none
  else some (averageRating d, medianRating d, bestTitles d, worstTitles d)

/-- `IStorage.movies_sorted_by_year`: ascending by year for input `"n"`
(latest first declined), descending for `"y"`, otherwise nothing. -/
def movies_sorted_by_year (d : Catalog) (userInput : String) : Catalog :=
  if userInput = "n" then pySorted yearLE d
  else if userInput = "y" then pySorted yearGE d
  else []

/-- The text of a cell, as handed to the program by `csv.reader`. -/
def cellStr : Cell → String
  | Cell.str s => s
  | Cell.int n => toString n
  | Cell.num q => toString q

/-- Whether the character list `pat` is a prefix of `l`. -/
def prefixAt : List Char → List Char → Bool
  | [], _ => true
  | _ :: _, [] => false
  | p :: ps, c :: cs => p == c && prefixAt ps cs

/-- Whether the character list `pat` occurs inside `l` (Python's
`pat in l` on strings). -/
def occursIn (pat : List Char) : List Char → Bool
  | [] => prefixAt pat []
  | c :: cs => prefixAt pat (c :: cs) || occursIn pat cs

/-- The test `tok in value.lower()` applied to a header cell in
`StorageCsv._load_data`. -/
def headerMatch (tok : String) (c : Cell) : Bool :=
  occursIn tok.data ((cellStr c).data.map Char.toLower)

/-- One step of the header scan of `StorageCsv._load_data`: the
`if 'title' in ... elif 'rating' in ... elif 'year' in ...` chain over one
`enumerate` item; a later match overwrites an earlier one. -/
def headerScanStep (acc : Option Nat × Option Nat × Option Nat) (ic : Nat × Cell) :
    Option Nat × Option Nat × Option Nat :=
  if headerMatch "title" ic.2 then (some ic.1, acc.2.1, acc.2.2)
  else if headerMatch "rating" ic.2 then (acc.1, some ic.1, acc.2.2)
  else if headerMatch "year" ic.2 then (acc.1, acc.2.1, some ic.1)
  else acc

/-- The `(title_index, rating_index, year_index)` triple computed from the
header row by `StorageCsv._load_data`. -/
def headerIndices (header : List Cell) : Option Nat × Option Nat × Option Nat :=
  header.enum.foldl headerScanStep (none, none, none)

/-- The `missing_columns` list built by `StorageCsv._load_data` when a
required column was not located, in source order. -/
def missingList (ti ri yi : Option Nat) : List String :=
  (if ti = none then ["title"] else [])
    ++ (if ri = none then ["rating"] else [])
    ++ (if yi = none then ["year"] else [])

/-- The two exceptions that can occur while reading one data row:
`ValueError` (caught per row, the row is skipped) and `IndexError`
(uncaught inside the loop, aborts the whole load). -/
inductive RowErr where
  | valueError
  | indexError
deriving DecidableEq

instance {ε α : Type} [DecidableEq ε] [DecidableEq α] : DecidableEq (Except ε α) := fun x y =>
  match x, y with
  | Except.ok a, Except.ok b =>
    if h : a = b then isTrue (by rw [h]) else isFalse (fun hh => h (Except.ok.inj hh))
  | Except.ok _, Except.error _ => isFalse (fun hh => Except.noConfusion hh)
  | Except.error _, Except.ok _ => isFalse (fun hh => Except.noConfusion hh)
  | Except.error e, Except.error e2 =>
    if h : e = e2 then isTrue (by rw [h]) else isFalse (fun hh => h (Except.error.inj hh))

/-- `row[i]`: out-of-range indexing raises `IndexError`. -/
def getCell (row : List Cell) (i : Nat) : Except RowErr Cell :=
  match row.get? i with
  | some c => Except.ok c
  | none => Except.error RowErr.indexError

/-- `float(cell) if cell else None`: an empty field is `None`, numeric
text converts, any other text raises `ValueError`. -/
def toFloat : Cell → Except RowErr (Option Rat)
  | Cell.str s => if s = "" then Except.ok none else Except.error RowErr.valueError
  | Cell.int n => Except.ok (some (n : Rat))
  | Cell.num q => Except.ok (some q)

/-- `int(cell) if cell else None`: an empty field is `None`, integer text
converts, float text (such as `"8.5"`) and other text raise
`ValueError`. -/
def toIntVal : Cell → Except RowErr (Option Int)
  | Cell.str s => if s = "" then Except.ok none else Except.error RowErr.valueError
  | Cell.int n => Except.ok (some n)
  | Cell.num _ => Except.error RowErr.valueError

/-- Reading one data row in `StorageCsv._load_data`, in source order:
title, then rating, then year; the resulting record has exactly the keys
`rating` and `year`. -/
def parseRow (ti ri yi : Nat) (row : List Cell) : Except RowErr (String × MRecord) :=
  match getCell row ti with
  | Except.error e => Except.error e
  | Except.ok tc =>
    match getCell row ri with
    | Except.error e => Except.error e
    | Except.ok rc =>
      match toFloat rc with
      | Except.error e => Except.error e
      | Except.ok rating =>
        match getCell row yi with
        | Except.error e => Except.error e
        | Except.ok yc =>
          match toIntVal yc with
          | Except.error e => Except.error e
          | Except.ok year =>
            Except.ok (cellStr tc, { year := some year, rating := some rating, poster := none })

/-- The row loop of `StorageCsv._load_data`: a `ValueError` skips the row
with a message, an `IndexError` escapes to the outer handler, which
prints an error and returns the empty dict. -/
def loadRows (ti ri yi : Nat) : List (List Cell) → Catalog → List Msg → Catalog × List Msg
  | [], acc, msgs => (acc, msgs)
  | row :: rest, acc, msgs =>
    match parseRow ti ri yi row with
    | Except.ok (t, r) => loadRows ti ri yi rest (dictSet acc t r) msgs
    | Except.error RowErr.valueError =>
        loadRows ti ri yi rest acc (msgs ++ [Msg.skippingRow row])
    | Except.error RowErr.indexError => ([], msgs ++ [Msg.loadError])

namespace StorageCsv

/-- `StorageCsv._load_data` on an existing file, modelled as the list of
its rows.  An empty file makes `next(reader)` raise, which the generic
handler turns into a printed error and an empty dict; a header lacking a
required column raises `ValueError` with the missing-column message,
caught by the same handler. -/
def load_data : List (List Cell) → Catalog × List Msg
  | [] => ([], [Msg.loadError])
  | header :: rows =>
    match headerIndices header with
    | (some ti, some ri, some yi) => loadRows ti ri yi rows [] []
    | (ti, ri, yi) => ([], [Msg.missingColumns (missingList ti ri yi)])

/-- `details.get('rating', 'N/A')` as a CSV field: `'N/A'` when the key is
absent, the empty field when the value is `None` (the `csv` writer writes
`None` as empty text), the number otherwise. -/
def ratingCell (r : MRecord) : Cell :=
  match r.rating with
  | none => Cell.str "N/A"
  | some none => Cell.str ""
  | some (some q) => Cell.num q

/-- `details.get('year', 'N/A')` as a CSV field. -/
def yearCell (r : MRecord) : Cell :=
  match r.year with
  | none => Cell.str "N/A"
  | some none => Cell.str ""
  | some (some n) => Cell.int n

/-- The row written for one catalog entry by `StorageCsv._save_data`. -/
def rowOf (p : String × MRecord) : List Cell :=
  [Cell.str p.1, ratingCell p.2, yearCell p.2]

/-- `StorageCsv._save_data`: the fixed header followed by one row per
entry, in catalog order. -/
def save_data (d : Catalog) : List (List Cell) :=
  [Cell.str "title", Cell.str "rating", Cell.str "year"] :: d.map rowOf

end StorageCsv

/-- The CSV backend as a `Backend`, forgetting the diagnostics. -/
def csvBackend : Backend (List (List Cell)) :=
  ⟨fun f => (StorageCsv.load_data f).1, StorageCsv.save_data⟩

/-- A JSON value as written and read back by `json.dump` / `json.load`
for this program's data: `json` round-trips these values through text
exactly (Python `int` and `str` exactly, `float` via `repr`), so the file
is modelled at the value level.  Only the value shapes this program
writes are needed. -/
inductive JValue where
  | null
  | jint (n : Int)
  | jnum (q : Rat)
  | jstr (s : String)
  | jobj (fields : List (String × JValue))

namespace StorageJson

/-- The JSON object `json.dump` writes for one record: its key-value
pairs, present keys only. -/
def encodeRecord (r : MRecord) : JValue :=
  JValue.jobj
    ((match r.year with
      | none => []
      | some none => [("year", JValue.null)]
      | some (some n) => [("year", JValue.jint n)])
      ++ (match r.rating with
        | none => []
        | some none => [("rating", JValue.null)]
        | some (some q) => [("rating", JValue.jnum q)])
      ++ (match r.poster with
        | none => []
        | some s => [("poster", JValue.jstr s)]))

/-- `StorageJson._save_data`: the file holds the catalog object, one field
per title, in catalog order. -/
def save_data (d : Catalog) : JValue :=
  JValue.jobj (d.map (fun p => (p.1, encodeRecord p.2)))

/-- Reading one record field of a loaded JSON object back into the typed
record shape.  `json.load` itself returns the parsed value unchanged;
this fold is the typed view of the dict it yields, `none` standing for a
value outside the shape this program writes. -/
def decodeField (r : MRecord) (kv : String × JValue) : Option MRecord :=
  if kv.1 = "year" then
    match kv.2 with
    | JValue.null => some { r with year := some none }
    | JValue.jint n => some { r with year := some (some n) }
    | _ => none
  else if kv.1 = "rating" then
    match kv.2 with
    | JValue.null => some { r with rating := some none }
    | JValue.jint n => some { r with rating := some (some (n : Rat)) }
    | JValue.jnum q => some { r with rating := some (some q) }
    | _ => none
  else if kv.1 = "poster" then
    match kv.2 with
    | JValue.jstr s => some { r with poster := some s }
    | _ => none
  else none

/-- A loaded JSON object as a record. -/
def decodeRecord : JValue → Option MRecord
  | JValue.jobj fields => fields.foldlM decodeField ⟨none, none, none⟩
  | _ => none

/-- `StorageJson._load_data` on an existing, parseable file: the loaded
value as a catalog, built with dict semantics (`json.load` keeps the
first position of a key and the last value). -/
def load_data (j : JValue) : Option Catalog :=
  match j with
  | JValue.jobj fields =>
    fields.foldlM (fun acc kv => (decodeRecord kv.2).map (dictSet acc kv.1)) []
  | _ => none

end StorageJson

/-- What a CSV save-then-load cycle keeps of one entry: the title and the
`rating` and `year` fields; the `poster` key is never written to CSV. -/
def stripPoster (p : String × MRecord) : String × MRecord :=
  (p.1, { year := p.2.year, rating := p.2.rating, poster := none })

/-- The catalog `{A: 8, B: 8, C: 5}` of the specification's statistics
example. -/
def exStats : Catalog :=
  [("A", newMovie 2001 8 ""), ("B", newMovie 2002 8 ""), ("C", newMovie 2003 5 "")]

/-- A catalog whose entries have years `[2010, 1999, 2010]`, the
specification's sort-stability example. -/
def exYears : Catalog :=
  [("M1", newMovie 2010 7 ""), ("M2", newMovie 1999 6 ""), ("M3", newMovie 2010 9 "")]

/-- A CSV file whose header is `Year,Title,Rating`: reordered and
mixed-case. -/
def exReordered : List (List Cell) :=
  [[Cell.str "Year", Cell.str "Title", Cell.str "Rating"],
   [Cell.int 1999, Cell.str "Matrix", Cell.num 9]]

/-- A CSV file whose header lacks a `rating` column. -/
def exNoRating : List (List Cell) :=
  [[Cell.str "Title", Cell.str "Year"], [Cell.str "Matrix", Cell.int 1999]]

/-- A data row whose rating field is non-numeric text. -/
def exBadRow : List Cell := [Cell.str "Oops", Cell.str "bad", Cell.int 1999]

/-- A catalog with one complete entry and one entry lacking the `rating`
key. -/
def exMissing : Catalog :=
  [("Good", newMovie 2000 8 ""), ("NoRating", ⟨some (some 2001), none, none⟩)]

theorem keys_append (d₁ d₂ : Catalog) : keys (d₁ ++ d₂) = keys d₁ ++ keys d₂ := by
  simp [keys]

theorem lookup_eq_none {d : Catalog} {k : String} (h : k ∉ keys d) :
    List.lookup k d = none := by
  induction d with
  | nil => rfl
  | cons p l ih =>
    obtain ⟨a, b⟩ := p
    simp only [keys, List.map_cons, List.mem_cons] at h
    push_neg at h
    simp only [List.lookup, beq_false_of_ne h.1]
    exact ih h.2

theorem dictSet_of_not_mem {d : Catalog} {k : String} (v : MRecord) (h : k ∉ keys d) :
    dictSet d k v = d ++ [(k, v)] := by
  induction d with
  | nil => rfl
  | cons p l ih =>
    simp only [keys, List.map_cons, List.mem_cons] at h
    push_neg at h
    simp only [dictSet, if_neg (Ne.symm h.1), List.cons_append, List.cons.injEq,
      true_and]
    exact ih h.2

theorem keys_dictSet_of_mem {d : Catalog} {k : String} (v : MRecord) (h : k ∈ keys d) :
    keys (dictSet d k v) = keys d := by
  induction d with
  | nil => simp [keys] at h
  | cons p l ih =>
    by_cases hp : p.1 = k
    · simp [dictSet, hp, keys]
    · simp only [keys, List.map_cons, List.mem_cons] at h
      rcases h with h | h
      · exact absurd h.symm hp
      · simp only [dictSet, if_neg hp, keys, List.map_cons, List.cons.injEq, true_and]
        exact ih h

theorem keys_dictSet_of_not_mem {d : Catalog} {k : String} (v : MRecord) (h : k ∉ keys d) :
    keys (dictSet d k v) = keys d ++ [k] := by
  rw [dictSet_of_not_mem v h, keys_append]
  rfl

theorem length_dictSet_of_mem {d : Catalog} {k : String} (v : MRecord) (h : k ∈ keys d) :
    (dictSet d k v).length = d.length := by
  induction d with
  | nil => simp [keys] at h
  | cons p l ih =>
    by_cases hp : p.1 = k
    · simp [dictSet, hp]
    · simp only [keys, List.map_cons, List.mem_cons] at h
      rcases h with h | h
      · exact absurd h.symm hp
      · simp only [dictSet, if_neg hp, List.length_cons]
        exact congrArg Nat.succ (ih h)

theorem lookup_dictSet_self (d : Catalog) (k : String) (v : MRecord) :
    List.lookup k (dictSet d k v) = some v := by
  induction d with
  | nil => simp [dictSet, List.lookup]
  | cons p l ih =>
    by_cases hp : p.1 = k
    · simp [dictSet, hp, List.lookup]
    · have hne : (k == p.1) = false := beq_false_of_ne (fun hh => hp hh.symm)
      obtain ⟨a, b⟩ := p
      simp only [dictSet, if_neg hp, List.lookup, hne]
      exact ih

theorem lookup_dictSet_ne {d : Catalog} {k k' : String} (v : MRecord) (h : k' ≠ k) :
    List.lookup k' (dictSet d k v) = List.lookup k' d := by
  induction d with
  | nil => simp [dictSet, List.lookup, beq_false_of_ne h]
  | cons p l ih =>
    obtain ⟨a, b⟩ := p
    by_cases hp : a = k
    · subst hp
      simp only [dictSet, if_pos rfl, List.lookup, beq_false_of_ne h]
    · simp only [dictSet, if_neg hp, List.lookup]
      cases hab : (k' == a)
      · simp only [hab]
        exact ih
      · simp only [hab]

theorem nodup_keys_dictSet {d : Catalog} {k : String} (v : MRecord)
    (h : (keys d).Nodup) : (keys (dictSet d k v)).Nodup := by
  by_cases hm : k ∈ keys d
  · rw [keys_dictSet_of_mem v hm]; exact h
  · rw [keys_dictSet_of_not_mem v hm]
    simp [List.nodup_append, h, hm]

theorem mem_keys_dictSet_self (d : Catalog) (k : String) (v : MRecord) :
    k ∈ keys (dictSet d k v) := by
  by_cases hm : k ∈ keys d
  · rw [keys_dictSet_of_mem v hm]; exact hm
  · rw [keys_dictSet_of_not_mem v hm]; simp

theorem mem_keys_dictSet_of_mem {d : Catalog} {t : String} (k : String) (v : MRecord)
    (h : t ∈ keys d) : t ∈ keys (dictSet d k v) := by
  by_cases hm : k ∈ keys d
  · rw [keys_dictSet_of_mem v hm]; exact h
  · rw [keys_dictSet_of_not_mem v hm]; simp [h]

theorem mem_eq_of_nodup {d : Catalog} (h : (keys d).Nodup) {t : String} {r r' : MRecord}
    (h1 : (t, r) ∈ d) (h2 : (t, r') ∈ d) : r = r' := by
  induction d with
  | nil => simp at h1
  | cons p l ih =>
    simp only [keys, List.map_cons, List.nodup_cons] at h
    rcases List.mem_cons.mp h1 with e1 | m1
    · subst e1
      rcases List.mem_cons.mp h2 with e2 | m2
      · exact (congrArg Prod.snd e2).symm
      · exact absurd (List.mem_map_of_mem Prod.fst m2) h.1
    · rcases List.mem_cons.mp h2 with e2 | m2
      · subst e2
        exact absurd (List.mem_map_of_mem Prod.fst m1) h.1
      · exact ih h.2 m1 m2

/-- C2: `add_movie` gives the title exactly the new record, leaves every
other title untouched, appends exactly one fresh entry when the title was
absent, keeps the size when it was present, and never creates a duplicate
key. -/
theorem add_movie_correct (d : Catalog) (t : String) (y : Int) (r : Rat) (p : String)
    (hnd : (keys d).Nodup) :
    List.lookup t (add_movie d t y r p) = some (newMovie y r p) ∧
    (∀ t', t' ≠ t → List.lookup t' (add_movie d t y r p) = List.lookup t' d) ∧
    (t ∉ keys d → add_movie d t y r p = d ++ [(t, newMovie y r p)]) ∧
    (t ∈ keys d → (add_movie d t y r p).length = d.length) ∧
    (keys (add_movie d t y r p)).Nodup := by
  refine ⟨lookup_dictSet_self d t (newMovie y r p),
    fun t' ht' => lookup_dictSet_ne _ ht',
    fun h => dictSet_of_not_mem _ h,
    fun h => length_dictSet_of_mem _ h,
    nodup_keys_dictSet _ hnd⟩

theorem add_movie_correct_witness :
    (keys exStats).Nodup ∧
    List.lookup "D" (add_movie exStats "D" 2004 6 "") = some (newMovie 2004 6 "") :=
  ⟨by decide, (add_movie_correct exStats "D" 2004 6 "" (by decide)).1⟩

/-- C4: deleting or updating a title that is not in the catalog leaves the
backing file (and hence the loaded catalog) completely unchanged, reports
the missing title only through a printed message, and returns normally. -/
theorem missing_title_noop {F : Type} (B : Backend F) (f : F) (t : String) (r : Rat)
    (h : t ∉ keys (B.load f)) :
    delete_movie B f t = (f, Msg.notFound t) ∧
    update_movie B f t r = (f, Msg.notFound t) ∧
    B.load (delete_movie B f t).1 = B.load f ∧
    B.load (update_movie B f t r).1 = B.load f := by
  have hd : delete_movie B f t = (f, Msg.notFound t) := by simp [delete_movie, h]
  have hu : update_movie B f t r = (f, Msg.notFound t) := by simp [update_movie, h]
  exact ⟨hd, hu, by rw [hd], by rw [hu]⟩

theorem missing_title_noop_witness :
    "Ghost" ∉ keys (csvBackend.load (StorageCsv.save_data exStats)) ∧
    delete_movie csvBackend (StorageCsv.save_data exStats) "Ghost" =
      (StorageCsv.save_data exStats, Msg.notFound "Ghost") :=
  ⟨by decide, (missing_title_noop csvBackend (StorageCsv.save_data exStats) "Ghost" 5
    (by decide)).1⟩

theorem mem_keys_of_lookup {d : Catalog} {t : String} {rec : MRecord}
    (h : List.lookup t d = some rec) : t ∈ keys d := by
  induction d with
  | nil => simp [List.lookup] at h
  | cons p l ih =>
    obtain ⟨a, b⟩ := p
    by_cases hab : t = a
    · simp [keys, hab]
    · simp only [List.lookup, beq_false_of_ne hab] at h
      simp only [keys, List.map_cons, List.mem_cons]
      exact Or.inr (ih h)

theorem lookup_setRating_self {d : Catalog} {t : String} {rec : MRecord} (r : Rat)
    (h : List.lookup t d = some rec) :
    List.lookup t (setRating d t r) = some { rec with rating := some (some r) } := by
  induction d with
  | nil => simp [List.lookup] at h
  | cons p l ih =>
    obtain ⟨a, b⟩ := p
    by_cases hab : t = a
    · subst hab
      simp only [List.lookup, beq_self_eq_true] at h
      cases h
      simp [setRating, List.lookup]
    · simp only [List.lookup, beq_false_of_ne hab] at h
      simp only [setRating, if_neg (fun hh => hab (Eq.symm hh)), List.lookup,
        beq_false_of_ne hab]
      exact ih h

theorem lookup_setRating_ne (d : Catalog) (t : String) (r : Rat) {t' : String}
    (h : t' ≠ t) : List.lookup t' (setRating d t r) = List.lookup t' d := by
  induction d with
  | nil => rfl
  | cons p l ih =>
    obtain ⟨a, b⟩ := p
    by_cases hat : a = t
    · subst hat
      simp only [setRating, if_pos rfl, List.lookup, beq_false_of_ne h]
    · simp only [setRating, if_neg hat, List.lookup]
      cases hab : (t' == a)
      · simp only [hab]
        exact ih
      · simp only [hab]

/-- C5: updating a present title rewrites only its rating field; the year
and poster of its record and every other entry are unchanged, and
`update_movie` persists exactly this transformed catalog. -/
theorem update_rating_frame (d : Catalog) (t : String) (r : Rat) (rec : MRecord)
    (hl : List.lookup t d = some rec) :
    List.lookup t (setRating d t r) = some { rec with rating := some (some r) } ∧
    ({ rec with rating := some (some r) } : MRecord).year = rec.year ∧
    ({ rec with rating := some (some r) } : MRecord).poster = rec.poster ∧
    (∀ t', t' ≠ t → List.lookup t' (setRating d t r) = List.lookup t' d) ∧
    (∀ (F : Type) (B : Backend F) (f : F), B.load f = d →
      update_movie B f t r = (B.save (setRating d t r), Msg.updated t)) := by
  refine ⟨lookup_setRating_self r hl, rfl, rfl,
    fun t' ht' => lookup_setRating_ne d t r ht', fun F B f hf => ?_⟩
  have hm : t ∈ keys d := mem_keys_of_lookup hl
  simp [update_movie, hf, hm]

theorem update_rating_frame_witness :
    List.lookup "A" exStats = some (newMovie 2001 8 "") ∧
    List.lookup "A" (setRating exStats "A" 9) =
      some { newMovie 2001 8 "" with rating := some (some 9) } :=
  ⟨by decide, (update_rating_frame exStats "A" 9 (newMovie 2001 8 "") (by decide)).1⟩

theorem filter_key_orderedInsert {α β : Type} [LinearOrder β] (k : α → β)
    (r : α → α → Prop) [DecidableRel r] (hr : ∀ a b, r a b ↔ k a ≤ k b) (y : β)
    (a : α) (l : List α) :
    (List.orderedInsert r a l).filter (fun x => decide (k x = y)) =
      if k a = y then a :: l.filter (fun x => decide (k x = y))
      else l.filter (fun x => decide (k x = y)) := by
  induction l with
  | nil =>
    by_cases hay : k a = y <;> simp [List.orderedInsert, List.filter, hay]
  | cons b l ih =>
    by_cases hab : r a b
    · by_cases hay : k a = y <;>
        simp [List.orderedInsert, if_pos hab, List.filter_cons, hay]
    · have hlt : k b < k a := lt_of_not_le (fun hh => hab ((hr a b).mpr hh))
      by_cases hay : k a = y
      · have hby : ¬(k b = y) := fun hh => (ne_of_lt hlt) (hh.trans hay.symm)
        simp [List.orderedInsert, if_neg hab, List.filter_cons, hby, ih, hay]
      · by_cases hby : k b = y <;>
          simp [List.orderedInsert, if_neg hab, List.filter_cons, hby, ih, hay]

theorem filter_key_insertionSort {α β : Type} [LinearOrder β] (k : α → β)
    (r : α → α → Prop) [DecidableRel r] (hr : ∀ a b, r a b ↔ k a ≤ k b) (y : β) :
    ∀ l : List α, (List.insertionSort r l).filter (fun x => decide (k x = y)) =
      l.filter (fun x => decide (k x = y))
  | [] => rfl
  | a :: l => by
    simp only [List.insertionSort]
    rw [filter_key_orderedInsert k r hr y a (List.insertionSort r l)]
    by_cases hay : k a = y
    · simp [hay, filter_key_insertionSort k r hr y l, List.filter_cons]
    · simp [hay, filter_key_insertionSort k r hr y l, List.filter_cons]

/-- C8: sorting by year ascending (user input `"n"`) is a stable sort:
the output is a permutation of the catalog, sorted by year, and any two
entries with equal year keep their original relative order (the sublist
at each year value is unchanged); on years `[2010, 1999, 2010]` the two
2010 entries keep their order. -/
theorem movies_sorted_by_year_stable :
    (∀ d : Catalog,
      (movies_sorted_by_year d "n").Perm d ∧
      List.Sorted yearLE (movies_sorted_by_year d "n") ∧
      (∀ y : Int, (movies_sorted_by_year d "n").filter (fun p => decide (recYear p.2 = y)) =
        d.filter (fun p => decide (recYear p.2 = y)))) ∧
    movies_sorted_by_year exYears "n" =
      [("M2", newMovie 1999 6 ""), ("M1", newMovie 2010 7 ""), ("M3", newMovie 2010 9 "")] := by
  constructor
  · intro d
    have hn : movies_sorted_by_year d "n" = List.insertionSort yearLE d := by
      simp [movies_sorted_by_year, pySorted]
    refine ⟨?_, ?_, ?_⟩
    · rw [hn]; exact List.perm_insertionSort yearLE d
    · rw [hn]; exact List.sorted_insertionSort yearLE d
    · intro y
      rw [hn]
      exact filter_key_insertionSort (fun p : String × MRecord => recYear p.2) yearLE
        (fun a b => Iff.rfl) y d
  · decide

theorem getLastD_mem {α : Type} : ∀ (l : List α) (d₀ : α), l ≠ [] → l.getLastD d₀ ∈ l
  | [], _, h => absurd rfl h
  | a :: t, d₀, _ => by
    cases t with
    | nil => simp [List.getLastD]
    | cons b t2 =>
      have hm := getLastD_mem (b :: t2) a (by simp)
      simp only [List.getLastD]
      exact List.mem_cons_of_mem a hm

theorem rel_getLastD_of_sorted {α : Type} (r : α → α → Prop) (hrefl : ∀ a, r a a) :
    ∀ (l : List α) (d₀ : α), List.Sorted r l → ∀ x ∈ l, r x (l.getLastD d₀)
  | [], _, _, x, hx => absurd hx (by simp)
  | a :: t, d₀, hs, x, hx => by
    cases t with
    | nil =>
      have hxa : x = a := List.mem_singleton.mp hx
      subst hxa
      simpa [List.getLastD] using hrefl x
    | cons b t2 =>
      simp only [List.getLastD]
      rcases List.mem_cons.mp hx with hxa | hx2
      · subst hxa
        exact List.rel_of_sorted_cons hs _ (getLastD_mem (b :: t2) x (by simp))
      · exact rel_getLastD_of_sorted r hrefl (b :: t2) a hs.of_cons x hx2

theorem rel_headD_of_sorted {α : Type} (r : α → α → Prop) (hrefl : ∀ a, r a a) :
    ∀ (l : List α) (d₀ : α), List.Sorted r l → ∀ x ∈ l, r (l.headD d₀) x
  | [], _, _, x, hx => absurd hx (by simp)
  | a :: t, _, hs, x, hx => by
    simp only [List.headD]
    rcases List.mem_cons.mp hx with hxa | hx2
    · subst hxa
      exact hrefl x
    · exact List.rel_of_sorted_cons hs _ hx2

theorem sortedMovies_perm (d : Catalog) : (sortedMovies d).Perm d :=
  List.perm_insertionSort ratingLE d

theorem sortedMovies_sorted (d : Catalog) : List.Sorted ratingLE (sortedMovies d) :=
  List.sorted_insertionSort ratingLE d

theorem sortedMovies_ne_nil {d : Catalog} (h : d ≠ []) : sortedMovies d ≠ [] := by
  intro hh
  apply h
  have hlen := (sortedMovies_perm d).length_eq
  rw [hh] at hlen
  exact List.length_eq_zero.mp hlen.symm

theorem mem_bestTitles_iff (d : Catalog) (hne : d ≠ []) (t : String) :
    t ∈ bestTitles d ↔ ∃ rec, (t, rec) ∈ d ∧ ∀ p ∈ d, recRating p.2 ≤ recRating rec := by
  have hperm := sortedMovies_perm d
  have hs := sortedMovies_sorted d
  have hsne := sortedMovies_ne_nil hne
  have hbm : bestMovie d ∈ sortedMovies d := by
    unfold bestMovie
    exact getLastD_mem _ _ hsne
  have hmax : ∀ p ∈ sortedMovies d, recRating p.2 ≤ recRating (bestMovie d).2 :=
    fun p hp => rel_getLastD_of_sorted ratingLE (fun a => le_refl (recRating a.2)) _ _ hs p hp
  unfold bestTitles tiedTitles
  constructor
  · intro ht
    rcases List.mem_map.mp ht with ⟨p, hpf, hpt⟩
    rcases List.mem_filter.mp hpf with ⟨hpmem, hpeq⟩
    have heq : recRating p.2 = recRating (bestMovie d).2 := by simpa using hpeq
    refine ⟨p.2, ?_, fun q hq => heq ▸ hmax q (hperm.mem_iff.mpr hq)⟩
    have hpd : p ∈ d := hperm.mem_iff.mp hpmem
    rw [← hpt]
    simpa using hpd
  · rintro ⟨rec, hmem, hall⟩
    have h1 : recRating rec ≤ recRating (bestMovie d).2 :=
      hmax (t, rec) (hperm.mem_iff.mpr hmem)
    have h2 : recRating (bestMovie d).2 ≤ recRating rec := hall (bestMovie d) (hperm.mem_iff.mp hbm)
    have heq : recRating rec = recRating (bestMovie d).2 := le_antisymm h1 h2
    apply List.mem_map.mpr
    exact ⟨(t, rec), List.mem_filter.mpr ⟨hperm.mem_iff.mpr hmem, by simp [heq]⟩, rfl⟩

theorem mem_worstTitles_iff (d : Catalog) (hne : d ≠ []) (t : String) :
    t ∈ worstTitles d ↔ ∃ rec, (t, rec) ∈ d ∧ ∀ p ∈ d, recRating rec ≤ recRating p.2 := by
  have hperm := sortedMovies_perm d
  have hs := sortedMovies_sorted d
  have hsne := sortedMovies_ne_nil hne
  have hwm : worstMovie d ∈ sortedMovies d := by
    unfold worstMovie
    cases hsm : sortedMovies d with
    | nil => exact absurd hsm hsne
    | cons a l => simp [List.headD]
  have hmin : ∀ p ∈ sortedMovies d, recRating (worstMovie d).2 ≤ recRating p.2 :=
    fun p hp => rel_headD_of_sorted ratingLE (fun a => le_refl (recRating a.2)) _ _ hs p hp
  unfold worstTitles tiedTitles
  constructor
  · intro ht
    rcases List.mem_map.mp ht with ⟨p, hpf, hpt⟩
    rcases List.mem_filter.mp hpf with ⟨hpmem, hpeq⟩
    have heq : recRating p.2 = recRating (worstMovie d).2 := by simpa using hpeq
    refine ⟨p.2, ?_, fun q hq => heq ▸ hmin q (hperm.mem_iff.mpr hq)⟩
    have hpd : p ∈ d := hperm.mem_iff.mp hpmem
    rw [← hpt]
    simpa using hpd
  · rintro ⟨rec, hmem, hall⟩
    have h1 : recRating (worstMovie d).2 ≤ recRating rec :=
      hmin (t, rec) (hperm.mem_iff.mpr hmem)
    have h2 : recRating rec ≤ recRating (worstMovie d).2 := hall (worstMovie d) (hperm.mem_iff.mp hwm)
    have heq : recRating rec = recRating (worstMovie d).2 := le_antisymm h2 h1
    apply List.mem_map.mpr
    exact ⟨(t, rec), List.mem_filter.mpr ⟨hperm.mem_iff.mpr hmem, by simp [heq]⟩, rfl⟩

theorem length_sortedRatings (d : Catalog) : (sortedRatings d).length = d.length := by
  unfold sortedRatings pySorted
  rw [List.length_insertionSort]
  exact List.length_map d _

/-- C3: on a non-empty catalog `show_stats` reports the arithmetic mean of
the ratings, the median of the ascending-sorted ratings (middle element
when the count is odd, mean of the two middle elements when even), and as
best and worst every title whose rating equals the maximum and minimum
rating; on `{A: 8, B: 8, C: 5}` it reports best `A, B`, worst `C`,
median `8` and mean `7`. -/
theorem show_stats_correct :
    (∀ d : Catalog, d ≠ [] →
      show_stats d = some (averageRating d, medianRating d, bestTitles d, worstTitles d) ∧
      averageRating d = (ratings d).sum / (d.length : Rat) ∧
      List.Sorted (· ≤ ·) (sortedRatings d) ∧
      (sortedRatings d).Perm (ratings d) ∧
      (d.length % 2 = 1 → medianRating d = (sortedRatings d).getD (d.length / 2) 0) ∧
      (d.length % 2 = 0 → medianRating d =
        ((sortedRatings d).getD (d.length / 2) 0 + (sortedRatings d).getD (d.length / 2 - 1) 0) / 2) ∧
      (∀ t, t ∈ bestTitles d ↔ ∃ rec, (t, rec) ∈ d ∧ ∀ p ∈ d, recRating p.2 ≤ recRating rec) ∧
      (∀ t, t ∈ worstTitles d ↔ ∃ rec, (t, rec) ∈ d ∧ ∀ p ∈ d, recRating rec ≤ recRating p.2)) ∧
    medianRating exStats = 8 ∧ bestTitles exStats = ["A", "B"] ∧
    worstTitles exStats = ["C"] ∧ averageRating exStats = 7 := by
  refine ⟨fun d hne => ?_, by decide, by decide, by decide, ?_⟩
  · have hlen : (sortedRatings d).length = d.length := length_sortedRatings d
    refine ⟨?_, rfl, ?_, ?_, ?_, ?_, mem_bestTitles_iff d hne, mem_worstTitles_iff d hne⟩
    · simp [show_stats, List.length_eq_zero, hne]
    · exact List.sorted_insertionSort _ _
    · exact List.perm_insertionSort _ _
    · intro hodd
      simp only [medianRating, hlen]
      rw [if_neg (by omega)]
    · intro heven
      simp only [medianRating, hlen]
      rw [if_pos heven]
  · show (ratings exStats).sum / ((exStats.length : Nat) : Rat) = 7
    norm_num [ratings, exStats, recRating, newMovie, Option.join]

theorem show_stats_correct_witness :
    exStats ≠ [] ∧
    show_stats exStats =
      some (averageRating exStats, medianRating exStats, bestTitles exStats, worstTitles exStats) :=
  ⟨by decide, (show_stats_correct.1 exStats (by decide)).1⟩

theorem loadRows_fst_msgs (ti ri yi : Nat) (l : List (List Cell)) :
    ∀ (acc : Catalog) (ms ms' : List Msg),
      (loadRows ti ri yi l acc ms).1 = (loadRows ti ri yi l acc ms').1 := by
  induction l with
  | nil => intro acc ms ms'; rfl
  | cons row rest ih =>
    intro acc ms ms'
    cases hp : parseRow ti ri yi row with
    | ok pr =>
      obtain ⟨t, r⟩ := pr
      simp only [loadRows, hp]
      exact ih _ _ _
    | error e =>
      cases e with
      | valueError =>
        simp only [loadRows, hp]
        exact ih _ _ _
      | indexError => simp only [loadRows, hp]

theorem loadRows_msgs_mono (ti ri yi : Nat) (l : List (List Cell)) :
    ∀ (acc : Catalog) (ms : List Msg),
      ∃ tl, (loadRows ti ri yi l acc ms).2 = ms ++ tl := by
  induction l with
  | nil => intro acc ms; exact ⟨[], by simp [loadRows]⟩
  | cons row rest ih =>
    intro acc ms
    cases hp : parseRow ti ri yi row with
    | ok pr =>
      obtain ⟨t, r⟩ := pr
      simp only [loadRows, hp]
      exact ih _ _
    | error e =>
      cases e with
      | valueError =>
        simp only [loadRows, hp]
        obtain ⟨tl, htl⟩ := ih acc (ms ++ [Msg.skippingRow row])
        exact ⟨[Msg.skippingRow row] ++ tl, by rw [htl, List.append_assoc]⟩
      | indexError =>
        simp only [loadRows, hp]
        exact ⟨[Msg.loadError], rfl⟩

theorem loadRows_skip (ti ri yi : Nat) {bad : List Cell}
    (hbad : parseRow ti ri yi bad = Except.error RowErr.valueError) :
    ∀ (l1 l2 : List (List Cell)) (acc : Catalog) (ms : List Msg),
      (loadRows ti ri yi (l1 ++ bad :: l2) acc ms).1 =
        (loadRows ti ri yi (l1 ++ l2) acc ms).1 := by
  intro l1
  induction l1 with
  | nil =>
    intro l2 acc ms
    simp only [List.nil_append, loadRows, hbad]
    exact loadRows_fst_msgs ti ri yi l2 acc _ ms
  | cons row rest ih =>
    intro l2 acc ms
    simp only [List.cons_append]
    cases hp : parseRow ti ri yi row with
    | ok pr =>
      obtain ⟨t, r⟩ := pr
      simp only [loadRows, hp]
      exact ih _ _ _
    | error e =>
      cases e with
      | valueError =>
        simp only [loadRows, hp]
        exact ih _ _ _
      | indexError => simp only [loadRows, hp]

theorem loadRows_skip_msg (ti ri yi : Nat) {bad : List Cell}
    (hbad : parseRow ti ri yi bad = Except.error RowErr.valueError) :
    ∀ (l1 l2 : List (List Cell)) (acc : Catalog) (ms : List Msg),
      (∀ row ∈ l1, parseRow ti ri yi row ≠ Except.error RowErr.indexError) →
      Msg.skippingRow bad ∈ (loadRows ti ri yi (l1 ++ bad :: l2) acc ms).2 := by
  intro l1
  induction l1 with
  | nil =>
    intro l2 acc ms _
    simp only [List.nil_append, loadRows, hbad]
    obtain ⟨tl, htl⟩ := loadRows_msgs_mono ti ri yi l2 acc (ms ++ [Msg.skippingRow bad])
    rw [htl]
    simp
  | cons row rest ih =>
    intro l2 acc ms hno
    simp only [List.cons_append]
    cases hp : parseRow ti ri yi row with
    | ok pr =>
      obtain ⟨t, r⟩ := pr
      simp only [loadRows, hp]
      exact ih _ _ _ (fun r2 h2 => hno r2 (List.mem_cons_of_mem _ h2))
    | error e =>
      cases e with
      | valueError =>
        simp only [loadRows, hp]
        exact ih _ _ _ (fun r2 h2 => hno r2 (List.mem_cons_of_mem _ h2))
      | indexError => exact absurd hp (hno row (List.mem_cons_self _ _))

theorem loadRows_keys_mono (ti ri yi : Nat) (l : List (List Cell)) :
    ∀ (acc : Catalog) (ms : List Msg) (t : String),
      (∀ row ∈ l, parseRow ti ri yi row ≠ Except.error RowErr.indexError) →
      t ∈ keys acc → t ∈ keys (loadRows ti ri yi l acc ms).1 := by
  induction l with
  | nil => intro acc ms t _ h; exact h
  | cons row rest ih =>
    intro acc ms t hno hmem
    cases hp : parseRow ti ri yi row with
    | ok pr =>
      obtain ⟨t2, r2⟩ := pr
      simp only [loadRows, hp]
      exact ih _ _ _ (fun r h => hno r (List.mem_cons_of_mem _ h))
        (mem_keys_dictSet_of_mem _ _ hmem)
    | error e =>
      cases e with
      | valueError =>
        simp only [loadRows, hp]
        exact ih _ _ _ (fun r h => hno r (List.mem_cons_of_mem _ h)) hmem
      | indexError => exact absurd hp (hno row (List.mem_cons_self _ _))

theorem loadRows_ok_mem_keys (ti ri yi : Nat) (l : List (List Cell)) :
    ∀ (acc : Catalog) (ms : List Msg),
      (∀ row ∈ l, parseRow ti ri yi row ≠ Except.error RowErr.indexError) →
      ∀ row ∈ l, ∀ pr, parseRow ti ri yi row = Except.ok pr →
        pr.1 ∈ keys (loadRows ti ri yi l acc ms).1 := by
  induction l with
  | nil => intro acc ms _ row hrow; simp at hrow
  | cons row0 rest ih =>
    intro acc ms hno row hrow pr hpr
    rcases List.mem_cons.mp hrow with heq | hmem
    · subst heq
      obtain ⟨t2, r2⟩ := pr
      simp only [loadRows, hpr]
      exact loadRows_keys_mono ti ri yi rest _ _ _
        (fun r h => hno r (List.mem_cons_of_mem _ h)) (mem_keys_dictSet_self _ _ _)
    · cases hp : parseRow ti ri yi row0 with
      | ok pr0 =>
        obtain ⟨t0, r0⟩ := pr0
        simp only [loadRows, hp]
        exact ih _ _ (fun r h => hno r (List.mem_cons_of_mem _ h)) row hmem pr hpr
      | error e =>
        cases e with
        | valueError =>
          simp only [loadRows, hp]
          exact ih _ _ (fun r h => hno r (List.mem_cons_of_mem _ h)) row hmem pr hpr
        | indexError => exact absurd hp (hno row0 (List.mem_cons_self _ _))

theorem loadRows_lookup_none (ti ri yi : Nat) {t : String} (l : List (List Cell)) :
    ∀ (acc : Catalog) (ms : List Msg),
      (∀ row ∈ l, ∀ pr, parseRow ti ri yi row = Except.ok pr → pr.1 ≠ t) →
      List.lookup t acc = none →
      List.lookup t (loadRows ti ri yi l acc ms).1 = none := by
  induction l with
  | nil => intro acc ms _ h; exact h
  | cons row rest ih =>
    intro acc ms hne hacc
    cases hp : parseRow ti ri yi row with
    | ok pr =>
      obtain ⟨t2, r2⟩ := pr
      simp only [loadRows, hp]
      refine ih _ _ (fun r h => hne r (List.mem_cons_of_mem _ h)) ?_
      rw [lookup_dictSet_ne r2 (fun hh => hne row (List.mem_cons_self _ _) (t2, r2) hp hh.symm)]
      exact hacc
    | error e =>
      cases e with
      | valueError =>
        simp only [loadRows, hp]
        exact ih _ _ (fun r h => hne r (List.mem_cons_of_mem _ h)) hacc
      | indexError =>
        simp only [loadRows, hp]
        rfl

/-- C7: when the header is valid, a data row whose rating or year field is
non-numeric is skipped individually with a diagnostic, and every other
well-formed row is still loaded into the resulting catalog. -/
theorem csv_bad_row_skipped (header : List Cell) (r1 r2 : List (List Cell))
    (bad : List Cell) (ti ri yi : Nat)
    (hh : headerIndices header = (some ti, some ri, some yi))
    (hbad : parseRow ti ri yi bad = Except.error RowErr.valueError)
    (hno : ∀ row ∈ r1 ++ r2, parseRow ti ri yi row ≠ Except.error RowErr.indexError) :
    (StorageCsv.load_data (header :: (r1 ++ bad :: r2))).1 =
      (StorageCsv.load_data (header :: (r1 ++ r2))).1 ∧
    Msg.skippingRow bad ∈ (StorageCsv.load_data (header :: (r1 ++ bad :: r2))).2 ∧
    (∀ row ∈ r1 ++ r2, ∀ pr, parseRow ti ri yi row = Except.ok pr →
      pr.1 ∈ keys (StorageCsv.load_data (header :: (r1 ++ bad :: r2))).1) := by
  have hload : ∀ rows, StorageCsv.load_data (header :: rows) = loadRows ti ri yi rows [] [] := by
    intro rows
    simp [StorageCsv.load_data, hh]
  have hno2 : ∀ row2 ∈ r1 ++ bad :: r2,
      parseRow ti ri yi row2 ≠ Except.error RowErr.indexError := by
    intro row2 h2
    rcases List.mem_append.mp h2 with h | h
    · exact hno row2 (List.mem_append_left _ h)
    · rcases List.mem_cons.mp h with he | h
      · subst he
        simp [hbad]
      · exact hno row2 (List.mem_append_right _ h)
  refine ⟨?_, ?_, ?_⟩
  · rw [hload, hload]
    exact loadRows_skip ti ri yi hbad r1 r2 [] []
  · rw [hload]
    exact loadRows_skip_msg ti ri yi hbad r1 r2 [] []
      (fun row h => hno row (List.mem_append_left _ h))
  · intro row hrow pr hpr
    rw [hload]
    have hmem2 : row ∈ r1 ++ bad :: r2 := by
      rcases List.mem_append.mp hrow with h | h
      · exact List.mem_append_left _ h
      · exact List.mem_append_right _ (List.mem_cons_of_mem _ h)
    exact loadRows_ok_mem_keys ti ri yi (r1 ++ bad :: r2) [] [] hno2 row hmem2 pr hpr

theorem csv_bad_row_skipped_witness :
    headerIndices [Cell.str "title", Cell.str "rating", Cell.str "year"] =
      (some 0, some 1, some 2) ∧
    parseRow 0 1 2 exBadRow = Except.error RowErr.valueError ∧
    (StorageCsv.load_data ([Cell.str "title", Cell.str "rating", Cell.str "year"] ::
        ([[Cell.str "Good", Cell.num 8, Cell.int 2000]] ++ exBadRow ::
          [[Cell.str "Fine", Cell.num 7, Cell.int 2001]]))).1 =
      (StorageCsv.load_data ([Cell.str "title", Cell.str "rating", Cell.str "year"] ::
        ([[Cell.str "Good", Cell.num 8, Cell.int 2000]] ++
          [[Cell.str "Fine", Cell.num 7, Cell.int 2001]]))).1 :=
  ⟨by decide, by decide,
    (csv_bad_row_skipped [Cell.str "title", Cell.str "rating", Cell.str "year"]
      [[Cell.str "Good", Cell.num 8, Cell.int 2000]]
      [[Cell.str "Fine", Cell.num 7, Cell.int 2001]] exBadRow 0 1 2
      (by decide) (by decide) (by decide)).1⟩

theorem scanStep_fst_of_not_title {acc : Option Nat × Option Nat × Option Nat}
    {n : Nat} {c : Cell} (hm : headerMatch "title" c = false) :
    (headerScanStep acc (n, c)).1 = acc.1 := by
  by_cases hr : headerMatch "rating" c = true <;>
    by_cases hy : headerMatch "year" c = true <;>
      simp [headerScanStep, hm, hr, hy]

theorem scanStep_snd_of_kept {acc : Option Nat × Option Nat × Option Nat}
    {n : Nat} {c : Cell} (hm : (headerMatch "rating" c && !headerMatch "title" c) = false) :
    (headerScanStep acc (n, c)).2.1 = acc.2.1 := by
  rcases Bool.and_eq_false_iff.mp hm with hr | ht
  · by_cases ht2 : headerMatch "title" c = true <;>
      by_cases hy : headerMatch "year" c = true <;>
        simp [headerScanStep, hr, ht2, hy]
  · have ht2 : headerMatch "title" c = true := by
      cases h2 : headerMatch "title" c
      · rw [h2] at ht; simp at ht
      · rfl
    simp [headerScanStep, ht2]

theorem scanStep_thd_of_kept {acc : Option Nat × Option Nat × Option Nat}
    {n : Nat} {c : Cell}
    (hm : (headerMatch "year" c && !headerMatch "title" c && !headerMatch "rating" c) = false) :
    (headerScanStep acc (n, c)).2.2 = acc.2.2 := by
  by_cases ht : headerMatch "title" c = true
  · simp [headerScanStep, ht]
  · by_cases hr : headerMatch "rating" c = true
    · simp [headerScanStep, ht, hr]
    · have hy : headerMatch "year" c = false := by
        cases h2 : headerMatch "year" c
        · rfl
        · rw [h2] at hm
          simp [Bool.eq_false_iff.mpr ht, Bool.eq_false_iff.mpr hr] at hm
      simp [headerScanStep, ht, hr, hy]

theorem scan_title_none (l : List Cell) :
    ∀ (n : Nat) (acc : Option Nat × Option Nat × Option Nat),
      ((List.enumFrom n l).foldl headerScanStep acc).1 = none ↔
        acc.1 = none ∧ ∀ c ∈ l, headerMatch "title" c = false := by
  induction l with
  | nil => intro n acc; simp [List.enumFrom]
  | cons c rest ih =>
    intro n acc
    simp only [List.enumFrom, List.foldl_cons]
    rw [ih (n + 1) (headerScanStep acc (n, c))]
    cases hm : headerMatch "title" c
    · rw [scanStep_fst_of_not_title hm, List.forall_mem_cons]
      exact ⟨fun hh => ⟨hh.1, hm, hh.2⟩, fun hh => ⟨hh.1, hh.2.2⟩⟩
    · have h1 : (headerScanStep acc (n, c)).1 = some n := by simp [headerScanStep, hm]
      rw [h1]
      constructor
      · rintro ⟨h2, _⟩
        exact absurd h2 (Option.some_ne_none n)
      · rintro ⟨_, h2⟩
        have h3 := h2 c (List.mem_cons_self c rest)
        rw [hm] at h3
        exact Bool.noConfusion h3

theorem scan_rating_none (l : List Cell) :
    ∀ (n : Nat) (acc : Option Nat × Option Nat × Option Nat),
      ((List.enumFrom n l).foldl headerScanStep acc).2.1 = none ↔
        acc.2.1 = none ∧ ∀ c ∈ l, (headerMatch "rating" c && !headerMatch "title" c) = false := by
  induction l with
  | nil => intro n acc; simp [List.enumFrom]
  | cons c rest ih =>
    intro n acc
    simp only [List.enumFrom, List.foldl_cons]
    rw [ih (n + 1) (headerScanStep acc (n, c))]
    cases hm : (headerMatch "rating" c && !headerMatch "title" c)
    · rw [scanStep_snd_of_kept hm, List.forall_mem_cons]
      exact ⟨fun hh => ⟨hh.1, hm, hh.2⟩, fun hh => ⟨hh.1, hh.2.2⟩⟩
    · rcases Bool.and_eq_true_iff.mp hm with ⟨hr, ht⟩
      have ht2 : headerMatch "title" c = false := by
        cases h2 : headerMatch "title" c
        · rfl
        · rw [h2] at ht; simp at ht
      have h1 : (headerScanStep acc (n, c)).2.1 = some n := by
        simp [headerScanStep, ht2, hr]
      rw [h1]
      constructor
      · rintro ⟨h2, _⟩
        exact absurd h2 (Option.some_ne_none n)
      · rintro ⟨_, h2⟩
        have h3 := h2 c (List.mem_cons_self c rest)
        rw [hm] at h3
        exact Bool.noConfusion h3

theorem scan_year_none (l : List Cell) :
    ∀ (n : Nat) (acc : Option Nat × Option Nat × Option Nat),
      ((List.enumFrom n l).foldl headerScanStep acc).2.2 = none ↔
        acc.2.2 = none ∧ ∀ c ∈ l,
          (headerMatch "year" c && !headerMatch "title" c && !headerMatch "rating" c) = false := by
  induction l with
  | nil => intro n acc; simp [List.enumFrom]
  | cons c rest ih =>
    intro n acc
    simp only [List.enumFrom, List.foldl_cons]
    rw [ih (n + 1) (headerScanStep acc (n, c))]
    cases hm : (headerMatch "year" c && !headerMatch "title" c && !headerMatch "rating" c)
    · rw [scanStep_thd_of_kept hm, List.forall_mem_cons]
      exact ⟨fun hh => ⟨hh.1, hm, hh.2⟩, fun hh => ⟨hh.1, hh.2.2⟩⟩
    · have hy : headerMatch "year" c = true := (Bool.and_eq_true_iff.mp
        (Bool.and_eq_true_iff.mp hm).1).1
      have ht : headerMatch "title" c = false := by
        have := (Bool.and_eq_true_iff.mp (Bool.and_eq_true_iff.mp hm).1).2
        cases h2 : headerMatch "title" c
        · rfl
        · rw [h2] at this; simp at this
      have hr : headerMatch "rating" c = false := by
        have := (Bool.and_eq_true_iff.mp hm).2
        cases h2 : headerMatch "rating" c
        · rfl
        · rw [h2] at this; simp at this
      have h1 : (headerScanStep acc (n, c)).2.2 = some n := by
        simp [headerScanStep, ht, hr, hy]
      rw [h1]
      constructor
      · rintro ⟨h2, _⟩
        exact absurd h2 (Option.some_ne_none n)
      · rintro ⟨_, h2⟩
        have h3 := h2 c (List.mem_cons_self c rest)
        rw [hm] at h3
        exact Bool.noConfusion h3

theorem mem_missingList (ti ri yi : Option Nat) :
    ("title" ∈ missingList ti ri yi ↔ ti = none) ∧
    ("rating" ∈ missingList ti ri yi ↔ ri = none) ∧
    ("year" ∈ missingList ti ri yi ↔ yi = none) := by
  unfold missingList
  cases ti <;> cases ri <;> cases yi <;> simp

theorem csv_missing_column_load (header : List Cell) (rows : List (List Cell))
    (h : (headerIndices header).1 = none ∨ (headerIndices header).2.1 = none ∨
      (headerIndices header).2.2 = none) :
    StorageCsv.load_data (header :: rows) =
      ([], [Msg.missingColumns (missingList (headerIndices header).1
        (headerIndices header).2.1 (headerIndices header).2.2)]) := by
  rcases hhi : headerIndices header with ⟨ti, riyi⟩
  obtain ⟨ri, yi⟩ := riyi
  rw [hhi] at h
  cases ti with
  | none => simp [StorageCsv.load_data, hhi]
  | some a =>
    cases ri with
    | none => simp [StorageCsv.load_data, hhi]
    | some b =>
      cases yi with
      | none => simp [StorageCsv.load_data, hhi]
      | some c => simp at h

/-- C6: the CSV loader locates the title, rating and year columns from the
header by case-insensitive substring match, independently of column
position (the reordered mixed-case header `Year,Title,Rating` maps
correctly); a column index stays unlocated exactly when no header cell
matches its token (with the `elif` chain letting `title` shadow `rating`
shadow `year` within one cell); and when any column is unlocated the load
returns an empty catalog together with a diagnostic naming exactly the
missing columns, without raising. -/
theorem csv_header_mapping :
    StorageCsv.load_data exReordered =
      ([("Matrix", ⟨some (some 1999), some (some 9), none⟩)], []) ∧
    (∀ header : List Cell,
      ((headerIndices header).1 = none ↔ ∀ c ∈ header, headerMatch "title" c = false) ∧
      ((headerIndices header).2.1 = none ↔
        ∀ c ∈ header, (headerMatch "rating" c && !headerMatch "title" c) = false) ∧
      ((headerIndices header).2.2 = none ↔
        ∀ c ∈ header,
          (headerMatch "year" c && !headerMatch "title" c && !headerMatch "rating" c) = false)) ∧
    (∀ (header : List Cell) (rows : List (List Cell)),
      (headerIndices header).1 = none ∨ (headerIndices header).2.1 = none ∨
        (headerIndices header).2.2 = none →
      StorageCsv.load_data (header :: rows) =
        ([], [Msg.missingColumns (missingList (headerIndices header).1
          (headerIndices header).2.1 (headerIndices header).2.2)]) ∧
      ("title" ∈ missingList (headerIndices header).1 (headerIndices header).2.1
          (headerIndices header).2.2 ↔ (headerIndices header).1 = none) ∧
      ("rating" ∈ missingList (headerIndices header).1 (headerIndices header).2.1
          (headerIndices header).2.2 ↔ (headerIndices header).2.1 = none) ∧
      ("year" ∈ missingList (headerIndices header).1 (headerIndices header).2.1
          (headerIndices header).2.2 ↔ (headerIndices header).2.2 = none)) := by
  refine ⟨by decide, fun header => ?_, fun header rows h => ?_⟩
  · have ht := scan_title_none header 0 (none, none, none)
    have hr := scan_rating_none header 0 (none, none, none)
    have hy := scan_year_none header 0 (none, none, none)
    unfold headerIndices List.enum
    exact ⟨by rw [ht]; simp, by rw [hr]; simp, by rw [hy]; simp⟩
  · exact ⟨csv_missing_column_load header rows h, (mem_missingList _ _ _).1,
      (mem_missingList _ _ _).2.1, (mem_missingList _ _ _).2.2⟩

theorem csv_header_mapping_witness :
    ((headerIndices [Cell.str "Title", Cell.str "Year"]).1 = none ∨
      (headerIndices [Cell.str "Title", Cell.str "Year"]).2.1 = none ∨
      (headerIndices [Cell.str "Title", Cell.str "Year"]).2.2 = none) ∧
    StorageCsv.load_data exNoRating =
      ([], [Msg.missingColumns (missingList (headerIndices [Cell.str "Title", Cell.str "Year"]).1
        (headerIndices [Cell.str "Title", Cell.str "Year"]).2.1
        (headerIndices [Cell.str "Title", Cell.str "Year"]).2.2)]) :=
  ⟨by decide, (csv_header_mapping.2.2 [Cell.str "Title", Cell.str "Year"]
    [[Cell.str "Matrix", Cell.int 1999]] (by decide)).1⟩

theorem parseRow_ok_shape {ti ri yi : Nat} {row : List Cell} {pr : String × MRecord}
    (h : parseRow ti ri yi row = Except.ok pr) :
    pr.2.poster = none ∧ pr.2.rating.isSome ∧ pr.2.year.isSome := by
  simp only [parseRow] at h
  rcases h1 : getCell row ti with e1 | tc
  · rw [h1] at h; exact absurd h (by simp)
  · rw [h1] at h
    simp only [] at h
    rcases h2 : getCell row ri with e2 | rc
    · rw [h2] at h; exact absurd h (by simp)
    · rw [h2] at h
      simp only [] at h
      rcases h3 : toFloat rc with e3 | rv
      · rw [h3] at h; exact absurd h (by simp)
      · rw [h3] at h
        simp only [] at h
        rcases h4 : getCell row yi with e4 | yc
        · rw [h4] at h; exact absurd h (by simp)
        · rw [h4] at h
          simp only [] at h
          rcases h5 : toIntVal yc with e5 | yv
          · rw [h5] at h; exact absurd h (by simp)
          · rw [h5] at h
            simp only [] at h
            cases h
            exact ⟨rfl, rfl, rfl⟩

theorem mem_dictSet {d : Catalog} {k : String} {v : MRecord} {q : String × MRecord}
    (h : q ∈ dictSet d k v) : q ∈ d ∨ q = (k, v) := by
  induction d with
  | nil =>
    simp only [dictSet, List.mem_singleton] at h
    exact Or.inr h
  | cons p l ih =>
    by_cases hp : p.1 = k
    · simp only [dictSet, if_pos hp] at h
      rcases List.mem_cons.mp h with he | hm
      · exact Or.inr he
      · exact Or.inl (List.mem_cons_of_mem _ hm)
    · simp only [dictSet, if_neg hp] at h
      rcases List.mem_cons.mp h with he | hm
      · exact Or.inl (by rw [he]; exact List.mem_cons_self p l)
      · rcases ih hm with h2 | h2
        · exact Or.inl (List.mem_cons_of_mem _ h2)
        · exact Or.inr h2

theorem loadRows_shape (ti ri yi : Nat) (l : List (List Cell)) :
    ∀ (acc : Catalog) (ms : List Msg),
      (∀ q ∈ acc, q.2.poster = none ∧ q.2.rating.isSome ∧ q.2.year.isSome) →
      ∀ q ∈ (loadRows ti ri yi l acc ms).1,
        q.2.poster = none ∧ q.2.rating.isSome ∧ q.2.year.isSome := by
  induction l with
  | nil => intro acc ms hacc q hq; exact hacc q hq
  | cons row rest ih =>
    intro acc ms hacc q hq
    cases hp : parseRow ti ri yi row with
    | ok pr =>
      obtain ⟨t2, r2⟩ := pr
      simp only [loadRows, hp] at hq
      refine ih _ _ ?_ q hq
      intro q2 hq2
      rcases mem_dictSet hq2 with h2 | h2
      · exact hacc q2 h2
      · rw [h2]
        exact parseRow_ok_shape hp
    | error e =>
      cases e with
      | valueError =>
        simp only [loadRows, hp] at hq
        exact ih _ _ hacc q hq
      | indexError =>
        simp only [loadRows, hp] at hq
        simp at hq

/-- C9: the CSV backend never persists the poster: the saved file is the
fixed three-column header plus one three-field row per entry, every record
produced by a CSV load has exactly the rating and year keys and no poster
key, so any poster value present before a CSV save-then-load cycle is
absent afterwards. -/
theorem csv_no_poster :
    (∀ d : Catalog,
      (StorageCsv.save_data d).head? =
        some [Cell.str "title", Cell.str "rating", Cell.str "year"] ∧
      ∀ row ∈ StorageCsv.save_data d, row.length = 3) ∧
    (∀ (f : List (List Cell)) (t : String) (r : MRecord),
      (t, r) ∈ (StorageCsv.load_data f).1 →
      r.poster = none ∧ r.rating.isSome ∧ r.year.isSome) ∧
    (∀ (d : Catalog) (t : String) (r : MRecord),
      (t, r) ∈ (StorageCsv.load_data (StorageCsv.save_data d)).1 → r.poster = none) := by
  have hload : ∀ (f : List (List Cell)) (t : String) (r : MRecord),
      (t, r) ∈ (StorageCsv.load_data f).1 →
      r.poster = none ∧ r.rating.isSome ∧ r.year.isSome := by
    intro f t r hmem
    cases f with
    | nil => simp [StorageCsv.load_data] at hmem
    | cons header rows =>
      rcases hhi : headerIndices header with ⟨ti, riyi⟩
      obtain ⟨ri, yi⟩ := riyi
      cases ti with
      | none => simp [StorageCsv.load_data, hhi] at hmem
      | some a =>
        cases ri with
        | none => simp [StorageCsv.load_data, hhi] at hmem
        | some b =>
          cases yi with
          | none => simp [StorageCsv.load_data, hhi] at hmem
          | some c =>
            simp only [StorageCsv.load_data, hhi] at hmem
            exact loadRows_shape a b c rows [] [] (by simp) (t, r) hmem
  refine ⟨fun d => ⟨rfl, ?_⟩, hload, fun d t r hmem => (hload _ t r hmem).1⟩
  intro row hrow
  rcases List.mem_cons.mp hrow with he | hm
  · rw [he]
    rfl
  · rcases List.mem_map.mp hm with ⟨p, _, hp⟩
    rw [← hp]
    rfl

theorem csv_no_poster_witness :
    ("Matrix", (⟨some (some 1999), some (some 9), none⟩ : MRecord)) ∈
      (StorageCsv.load_data exReordered).1 ∧
    (⟨some (some 1999), some (some 9), none⟩ : MRecord).poster = none :=
  ⟨by decide, (csv_no_poster.2.1 exReordered "Matrix" ⟨some (some 1999), some (some 9), none⟩
    (by decide)).1⟩

theorem parseRow_rowOf_ok {t : String} {rec : MRecord} {rv : Option Rat} {yv : Option Int}
    (hr : rec.rating = some rv) (hy : rec.year = some yv) :
    parseRow 0 1 2 (StorageCsv.rowOf (t, rec)) =
      Except.ok (t, { year := some yv, rating := some rv, poster := none }) := by
  rcases rv with _ | q <;> rcases yv with _ | n <;>
    simp [parseRow, getCell, StorageCsv.rowOf, StorageCsv.ratingCell, StorageCsv.yearCell,
      hr, hy, toFloat, toIntVal, cellStr]

theorem parseRow_rowOf_bad {p : String × MRecord}
    (h : p.2.rating = none ∨ p.2.year = none) :
    parseRow 0 1 2 (StorageCsv.rowOf p) = Except.error RowErr.valueError := by
  obtain ⟨t, rec⟩ := p
  rcases hr : rec.rating with _ | rv
  · simp [parseRow, getCell, StorageCsv.rowOf, StorageCsv.ratingCell, hr, toFloat]
  · rcases hy : rec.year with _ | yv
    · rcases rv with _ | q <;>
        simp [parseRow, getCell, StorageCsv.rowOf, StorageCsv.ratingCell, StorageCsv.yearCell,
          hr, hy, toFloat, toIntVal]
    · rw [hr, hy] at h
      rcases h with h | h <;> exact Option.noConfusion h

theorem parseRow_rowOf_no_index (p : String × MRecord) :
    parseRow 0 1 2 (StorageCsv.rowOf p) ≠ Except.error RowErr.indexError := by
  obtain ⟨t, rec⟩ := p
  rcases hr : rec.rating with _ | (_ | q) <;> rcases hy : rec.year with _ | (_ | n) <;>
    simp [parseRow, getCell, StorageCsv.rowOf, StorageCsv.ratingCell, StorageCsv.yearCell,
      hr, hy, toFloat, toIntVal]

theorem parseRow_rowOf_fst {p pr : String × MRecord}
    (h : parseRow 0 1 2 (StorageCsv.rowOf p) = Except.ok pr) : pr.1 = p.1 := by
  obtain ⟨t2, rec⟩ := p
  rcases hr : rec.rating with _ | rv
  · rw [parseRow_rowOf_bad (Or.inl hr)] at h
    exact absurd h (by simp)
  · rcases hy : rec.year with _ | yv
    · rw [parseRow_rowOf_bad (Or.inr hy)] at h
      exact absurd h (by simp)
    · rw [parseRow_rowOf_ok hr hy] at h
      cases h
      rfl

theorem load_save_eq_loadRows (d : Catalog) :
    StorageCsv.load_data (StorageCsv.save_data d) =
      loadRows 0 1 2 (d.map StorageCsv.rowOf) [] [] := by
  have hh : headerIndices [Cell.str "title", Cell.str "rating", Cell.str "year"] =
      (some 0, some 1, some 2) := by decide
  simp [StorageCsv.save_data, StorageCsv.load_data, hh]

/-- C10: an entry whose record lacks the rating or year key is written to
CSV with the literal placeholder `N/A` in that column; loading the saved
file fails to parse `N/A` as a number and skips that whole row with a
diagnostic, so the entry is absent from the loaded catalog. -/
theorem csv_missing_field_lost (d : Catalog) (t : String) (r : MRecord)
    (hnd : (keys d).Nodup) (hmem : (t, r) ∈ d)
    (hbad : r.rating = none ∨ r.year = none) :
    StorageCsv.rowOf (t, r) ∈ StorageCsv.save_data d ∧
    (r.rating = none → StorageCsv.ratingCell r = Cell.str "N/A") ∧
    (r.year = none → StorageCsv.yearCell r = Cell.str "N/A") ∧
    parseRow 0 1 2 (StorageCsv.rowOf (t, r)) = Except.error RowErr.valueError ∧
    List.lookup t (StorageCsv.load_data (StorageCsv.save_data d)).1 = none ∧
    Msg.skippingRow (StorageCsv.rowOf (t, r)) ∈
      (StorageCsv.load_data (StorageCsv.save_data d)).2 := by
  have hbadrow : parseRow 0 1 2 (StorageCsv.rowOf (t, r)) = Except.error RowErr.valueError :=
    parseRow_rowOf_bad hbad
  refine ⟨?_, ?_, ?_, hbadrow, ?_, ?_⟩
  · exact List.mem_cons_of_mem _ (List.mem_map_of_mem StorageCsv.rowOf hmem)
  · intro h
    simp [StorageCsv.ratingCell, h]
  · intro h
    simp [StorageCsv.yearCell, h]
  · rw [load_save_eq_loadRows]
    refine loadRows_lookup_none 0 1 2 (d.map StorageCsv.rowOf) [] [] ?_ rfl
    intro row hrow pr hpr heq
    rcases List.mem_map.mp hrow with ⟨p, hpd, hrw⟩
    rw [← hrw] at hpr
    have hp1 : p.1 = t := by rw [← (parseRow_rowOf_fst hpr), heq]
    have hptd : (t, p.2) ∈ d := by
      rw [← hp1]
      exact hpd
    have hp2r : p.2 = r := mem_eq_of_nodup hnd hptd hmem
    have hbad2 : p.2.rating = none ∨ p.2.year = none := by rw [hp2r]; exact hbad
    rw [parseRow_rowOf_bad hbad2] at hpr
    exact absurd hpr (by simp)
  · obtain ⟨d1, d2, hd⟩ := List.append_of_mem hmem
    rw [load_save_eq_loadRows, hd, List.map_append, List.map_cons]
    exact loadRows_skip_msg 0 1 2 hbadrow (d1.map StorageCsv.rowOf) (d2.map StorageCsv.rowOf)
      [] [] (fun row hrow => by
        rcases List.mem_map.mp hrow with ⟨p, _, hrw⟩
        rw [← hrw]
        exact parseRow_rowOf_no_index p)

theorem csv_missing_field_lost_witness :
    ((keys exMissing).Nodup ∧ ("NoRating", (⟨some (some 2001), none, none⟩ : MRecord)) ∈ exMissing ∧
      ((⟨some (some 2001), none, none⟩ : MRecord).rating = none ∨
        (⟨some (some 2001), none, none⟩ : MRecord).year = none)) ∧
    List.lookup "NoRating" (StorageCsv.load_data (StorageCsv.save_data exMissing)).1 = none :=
  ⟨⟨by decide, by decide, by decide⟩,
    (csv_missing_field_lost exMissing "NoRating" ⟨some (some 2001), none, none⟩
      (by decide) (by decide) (by decide)).2.2.2.2.1⟩

theorem loadRows_save (d : Catalog) :
    ∀ (acc : Catalog) (ms : List Msg),
      (keys acc ++ keys d).Nodup →
      (∀ p ∈ d, p.2.rating.isSome ∧ p.2.year.isSome) →
      loadRows 0 1 2 (d.map StorageCsv.rowOf) acc ms = (acc ++ d.map stripPoster, ms) := by
  induction d with
  | nil => intro acc ms _ _; simp [loadRows]
  | cons p l ih =>
    intro acc ms hnd hshape
    obtain ⟨t, rec⟩ := p
    obtain ⟨hrs, hys⟩ := hshape (t, rec) (List.mem_cons_self _ _)
    obtain ⟨rv, hr⟩ := Option.isSome_iff_exists.mp hrs
    obtain ⟨yv, hy⟩ := Option.isSome_iff_exists.mp hys
    have ht : t ∉ keys acc := by
      intro hmem
      rcases List.nodup_append.mp hnd with ⟨_, _, hdisj⟩
      exact hdisj hmem (by simp [keys])
    have hstrip : stripPoster (t, rec) = (t, (⟨some yv, some rv, none⟩ : MRecord)) := by
      simp [stripPoster]
      exact ⟨hy, hr⟩
    simp only [List.map_cons, loadRows, parseRow_rowOf_ok hr hy]
    rw [dictSet_of_not_mem _ ht]
    have hnd2 : (keys (acc ++ [(t, (⟨some yv, some rv, none⟩ : MRecord))]) ++ keys l).Nodup := by
      rw [keys_append]
      have he2 : keys [(t, (⟨some yv, some rv, none⟩ : MRecord))] = [t] := rfl
      rw [he2, List.append_assoc]
      simpa [keys] using hnd
    rw [ih (acc ++ [(t, (⟨some yv, some rv, none⟩ : MRecord))]) ms hnd2
      (fun q hq => hshape q (List.mem_cons_of_mem _ hq))]
    rw [hstrip]
    simp

theorem decodeRecord_encodeRecord (r : MRecord) :
    StorageJson.decodeRecord (StorageJson.encodeRecord r) = some r := by
  obtain ⟨y, rt, ps⟩ := r
  rcases y with _ | (_ | n) <;> rcases rt with _ | (_ | q) <;> rcases ps with _ | s <;> rfl

theorem json_fold (l : Catalog) :
    ∀ acc : Catalog, (keys (acc ++ l)).Nodup →
      List.foldlM (fun acc2 kv => (StorageJson.decodeRecord kv.2).map (dictSet acc2 kv.1)) acc
        (l.map (fun p => (p.1, StorageJson.encodeRecord p.2))) = some (acc ++ l) := by
  induction l with
  | nil => intro acc _; simp
  | cons p l2 ih =>
    intro acc hnd
    obtain ⟨t, rec⟩ := p
    have ht : t ∉ keys acc := by
      rw [keys_append] at hnd
      rcases List.nodup_append.mp hnd with ⟨_, _, hdisj⟩
      intro hmem
      exact hdisj hmem (by simp [keys])
    simp only [List.map_cons, List.foldlM_cons, decodeRecord_encodeRecord, Option.map_some',
      Option.bind_eq_bind, Option.some_bind]
    rw [dictSet_of_not_mem _ ht]
    have hnd2 : (keys ((acc ++ [(t, rec)]) ++ l2)).Nodup := by
      have he : keys ((acc ++ [(t, rec)]) ++ l2) = keys (acc ++ (t, rec) :: l2) := by
        simp [keys]
      rw [he]
      exact hnd
    rw [ih (acc ++ [(t, rec)]) hnd2]
    simp

/-- C1: saving a catalog and loading it back on the same backend yields
the catalog again: exactly for the JSON backend, and for the CSV backend
with every title, rating and year preserved exactly (the poster key,
which CSV does not persist, is the only difference, and the load emits no
diagnostic). -/
theorem save_load_round_trip :
    (∀ d : Catalog, (keys d).Nodup →
      StorageJson.load_data (StorageJson.save_data d) = some d) ∧
    (∀ d : Catalog, (keys d).Nodup →
      (∀ p ∈ d, p.2.rating.isSome ∧ p.2.year.isSome) →
      StorageCsv.load_data (StorageCsv.save_data d) = (d.map stripPoster, [])) ∧
    (∀ p : String × MRecord, (stripPoster p).1 = p.1 ∧
      (stripPoster p).2.rating = p.2.rating ∧ (stripPoster p).2.year = p.2.year) := by
  refine ⟨fun d hnd => ?_, fun d hnd hshape => ?_, fun p => ⟨rfl, rfl, rfl⟩⟩
  · simp only [StorageJson.save_data, StorageJson.load_data]
    have := json_fold d [] (by simpa [keys] using hnd)
    simpa using this
  · rw [load_save_eq_loadRows]
    have := loadRows_save d [] [] (by simpa [keys] using hnd) hshape
    simpa using this

theorem save_load_round_trip_witness :
    (keys exStats).Nodup ∧
    StorageJson.load_data (StorageJson.save_data exStats) = some exStats :=
  ⟨by decide, save_load_round_trip.1 exStats (by decide)⟩

end MovieCat
